import Mathlib

/-!
Verification of the BloomWatch analytics core (frontend `App.tsx`, two
variants) against its natural-language specification.  NDVI values and
coordinates are modelled as rationals; calendar timestamps as a pair of a
day index and a finer tick (the code compares full `Date` objects but keys
merged series by the first ten characters of the ISO string, i.e. the day).
-/

namespace BloomWatch

/-- A timestamp: `day` is the calendar-day part (the first 10 characters of
the ISO string), `tick` the finer time-of-day part used by full `Date`
comparisons. -/
structure DateT where
  day : ℕ
  tick : ℕ
deriving DecidableEq, Repr

/-- Strict order on timestamps, as `new Date(a) < new Date(b)`. -/
def dateLt (a b : DateT) : Prop :=
  a.day < b.day ∨ (a.day = b.day ∧ a.tick < b.tick)

instance (a b : DateT) : Decidable (dateLt a b) := by
  unfold dateLt; infer_instance

/-- One NDVI record `{ Date, NDVI }`. -/
structure ObsPoint where
  date : DateT
  ndvi : ℚ
deriving DecidableEq, Repr

/-- `vegType` from `summary.current` (App.tsx, first variant): the fixed
band table evaluated highest lower-bound first. -/
def vegType (v : ℚ) : String :=
  if 7/10 ≤ v then "Very Dense Vegetation"
  else if 6/10 ≤ v then "Dense Vegetation"
  else if 2/5 ≤ v then "Healthy Vegetation"
  else if 1/5 ≤ v then "Sparse Vegetation"
  else if 1/10 ≤ v then "Bare/Sparse"
  else "Water/Non-vegetated"

/-- `health_status` from `summary.current` (App.tsx, first variant):
`latestNdvi >= 0.4 ? 'Growing' : (latestNdvi >= 0.2 ? 'Moderate' : 'Poor')`. -/
def healthStatus (v : ℚ) : String :=
  if 2/5 ≤ v then "Growing"
  else if 1/5 ≤ v then "Moderate"
  else "Poor"

/-- `values.slice(-windowSize)` where `windowSize = min(w, values.length)`:
the last `min(w, len)` points of the series. -/
def trendWindow (values : List ℚ) (w : ℕ) : List ℚ :=
  values.drop (values.length - min w values.length)

/-- `delta = rec[rec.length - 1] - rec[0]` over the trend window. -/
def trendDelta (values : List ℚ) (w : ℕ) : ℚ :=
  (trendWindow values w).getLastD 0 - (trendWindow values w).headD 0

/-- `Math.abs(delta) < 0.02 ? 'Stable' : (delta > 0 ? 'Improving' : 'Declining')`. -/
def trendLabel (values : List ℚ) (w : ℕ) : String :=
  if |trendDelta values w| < 1/50 then "Stable"
  else if 0 < trendDelta values w then "Improving"
  else "Declining"

/-- Claim C2 (counterexample): the code maps NDVI `0.7` to health status
`"Growing"`, not the claimed `"Peak Health"`. -/
theorem healthStatus_seven_tenths :
    healthStatus (7/10) = "Growing" ∧ "Growing" ≠ "Peak Health" := by
  constructor
  · unfold healthStatus
    rw [if_pos (by norm_num)]
  · decide

/-- Claim C2 (amended): the vegetation label follows the spec's band table
(highest lower bound first), but the health status is computed only from
the thresholds 0.4 and 0.2: `Growing` for v ≥ 0.4, `Moderate` for
0.2 ≤ v < 0.4, and `Poor` otherwise; every input falls in exactly one band
since the six ranges partition the rationals and both maps are functions. -/
theorem vegType_healthStatus_bands (v : ℚ) :
    (7/10 ≤ v → vegType v = "Very Dense Vegetation" ∧ healthStatus v = "Growing")
    ∧ (6/10 ≤ v → v < 7/10 → vegType v = "Dense Vegetation" ∧ healthStatus v = "Growing")
    ∧ (2/5 ≤ v → v < 6/10 → vegType v = "Healthy Vegetation" ∧ healthStatus v = "Growing")
    ∧ (1/5 ≤ v → v < 2/5 → vegType v = "Sparse Vegetation" ∧ healthStatus v = "Moderate")
    ∧ (1/10 ≤ v → v < 1/5 → vegType v = "Bare/Sparse" ∧ healthStatus v = "Poor")
    ∧ (v < 1/10 → vegType v = "Water/Non-vegetated" ∧ healthStatus v = "Poor") := by
  unfold vegType healthStatus
  refine ⟨fun h => ?_, fun h h2 => ?_, fun h h2 => ?_, fun h h2 => ?_,
    fun h h2 => ?_, fun h => ?_⟩ <;>
    split_ifs <;> first | exact ⟨rfl, rfl⟩ | (exfalso; linarith)

/-- Witness for C2 (amended) at `v = 3/4`. -/
theorem vegType_healthStatus_bands_witness :
    vegType (3/4) = "Very Dense Vegetation" ∧ healthStatus (3/4) = "Growing" :=
  (vegType_healthStatus_bands (3/4)).1 (by norm_num)

/-- Dropping fewer elements than the length does not change the last element. -/
theorem getLastD_drop (l : List ℚ) (n : ℕ) (h : n < l.length) :
    (l.drop n).getLastD 0 = l.getLastD 0 := by
  induction l generalizing n with
  | nil => simp at h
  | cons a t ih =>
    cases n with
    | zero => rfl
    | succ n =>
      have ht : n < t.length := by simpa using h
      calc ((a :: t).drop (n + 1)).getLastD 0 = (t.drop n).getLastD 0 := rfl
        _ = t.getLastD 0 := ih n ht
        _ = (a :: t).getLastD 0 := by
            cases t with
            | nil => simp at ht
            | cons b u => simp [List.getLastD_cons]

/-- The head of `l.drop n` (default 0) is `l`'s `n`-th element (default 0). -/
theorem headD_drop (l : List ℚ) (n : ℕ) : (l.drop n).headD 0 = l.getD n 0 := by
  induction l generalizing n with
  | nil => cases n <;> rfl
  | cons a t ih =>
    cases n with
    | zero => rfl
    | succ n => exact ih n

/-- The `getLastD` of a nonempty list is a member of it. -/
theorem getLastD_mem (l : List ℚ) (h : l ≠ []) : l.getLastD 0 ∈ l := by
  induction l with
  | nil => exact absurd rfl h
  | cons a t ih =>
    cases t with
    | nil => simp
    | cons b u =>
      have hmem : (b :: u).getLastD 0 ∈ (b :: u) := ih (by simp)
      simp only [List.getLastD_cons] at hmem ⊢
      exact List.mem_cons_of_mem a hmem

/-- The `headD` of a nonempty list is a member of it. -/
theorem headD_mem (l : List ℚ) (h : l ≠ []) : l.headD 0 ∈ l := by
  cases l with
  | nil => exact absurd rfl h
  | cons a t => simp

/-- Claim C8: the trend classifier takes the last `min(windowSize, len)`
points, computes `delta = value[last] - value[first]` within that window,
and classifies `|delta| < 0.02` as Stable, then `delta > 0` as Improving,
otherwise Declining; a constant series always yields Stable. -/
theorem trend_classify_correct (values : List ℚ) (w : ℕ)
    (hlen : 1 ≤ values.length) (hw : 1 ≤ w) :
    (trendWindow values w).length = min w values.length
    ∧ trendDelta values w =
        values.getLastD 0 - values.getD (values.length - min w values.length) 0
    ∧ (|trendDelta values w| < 1/50 → trendLabel values w = "Stable")
    ∧ (¬ |trendDelta values w| < 1/50 → 0 < trendDelta values w →
        trendLabel values w = "Improving")
    ∧ (¬ |trendDelta values w| < 1/50 → ¬ 0 < trendDelta values w →
        trendLabel values w = "Declining")
    ∧ ((∀ x ∈ values, ∀ y ∈ values, x = y) → trendLabel values w = "Stable") := by
  have hk1 : 1 ≤ min w values.length := le_min hw hlen
  have hkle : min w values.length ≤ values.length := min_le_right _ _
  have hwin : (trendWindow values w).length = min w values.length := by
    unfold trendWindow
    rw [List.length_drop]
    omega
  have hninl : values.length - min w values.length < values.length := by omega
  have hne : trendWindow values w ≠ [] := by
    intro he
    rw [he] at hwin
    simp at hwin
    omega
  refine ⟨hwin, ?_, ?_, ?_, ?_, ?_⟩
  · unfold trendDelta trendWindow
    rw [getLastD_drop values _ hninl, headD_drop]
  · intro h
    unfold trendLabel
    rw [if_pos h]
  · intro h h2
    unfold trendLabel
    rw [if_neg h, if_pos h2]
  · intro h h2
    unfold trendLabel
    rw [if_neg h, if_neg h2]
  · intro hconst
    have hsub : trendWindow values w ⊆ values := by
      unfold trendWindow
      exact List.drop_subset _ _
    have h1 : (trendWindow values w).getLastD 0 ∈ values := hsub (getLastD_mem _ hne)
    have h2 : (trendWindow values w).headD 0 ∈ values := hsub (headD_mem _ hne)
    have hz : trendDelta values w = 0 := by
      unfold trendDelta
      rw [hconst _ h1 _ h2]
      ring
    unfold trendLabel
    rw [hz, if_pos (by norm_num)]

/-- Witness for C8: the constant series `[0.5, 0.5]` with window 60
classifies as Stable. -/
theorem trend_classify_correct_witness : trendLabel [1/2, 1/2] 60 = "Stable" :=
  (trend_classify_correct [1/2, 1/2] 60 (by decide) (by decide)).2.2.2.2.2
    (by intro x hx y hy; fin_cases hx <;> fin_cases hy <;> rfl)

/-- Modelled from the spec: the bloom/peak detection runs in the Python
backend behind `/api/peaks`, which is not under `src/`; only its frontend
callers are.  Per the spec, a point at index `i` (1 ≤ i ≤ len-2) is a bloom
event iff `value[i] >= threshold`, `value[i] > value[i-1]` and
`value[i] >= value[i+1]`, returned in ascending index order. -/
def detect (values : List ℚ) (threshold : ℚ) : List ℕ :=
  (List.range values.length).filter fun i =>
    decide (1 ≤ i ∧ i + 1 < values.length ∧ threshold ≤ values.getD i 0 ∧
      values.getD (i - 1) 0 < values.getD i 0 ∧ values.getD (i + 1) 0 ≤ values.getD i 0)

/-- Claim C1: `detect` returns exactly the interior indices that are at or
above the threshold, strictly above their left neighbour and at least their
right neighbour, in ascending order; a series shorter than 3 points yields
no events; and on the series `[0.1, 0.35, 0.55, 0.3]` with threshold `0.2`
it returns only index 2 (the `0.55` point). -/
theorem detect_correct (values : List ℚ) (t : ℚ) :
    (∀ i, i ∈ detect values t ↔
      (1 ≤ i ∧ i + 1 < values.length ∧ t ≤ values.getD i 0 ∧
        values.getD (i - 1) 0 < values.getD i 0 ∧
        values.getD (i + 1) 0 ≤ values.getD i 0))
    ∧ (detect values t).Pairwise (· < ·)
    ∧ (values.length < 3 → detect values t = [])
    ∧ detect [1/10, 7/20, 11/20, 3/10] (1/5) = [2] := by
  have hmem : ∀ i, i ∈ detect values t ↔
      (1 ≤ i ∧ i + 1 < values.length ∧ t ≤ values.getD i 0 ∧
        values.getD (i - 1) 0 < values.getD i 0 ∧
        values.getD (i + 1) 0 ≤ values.getD i 0) := by
    intro i
    unfold detect
    rw [List.mem_filter, List.mem_range, decide_eq_true_eq]
    constructor
    · exact fun h => h.2
    · exact fun h => ⟨by omega, h⟩
  refine ⟨hmem, ?_, ?_, ?_⟩
  · exact (List.pairwise_lt_range _).filter _
  · intro hshort
    rw [List.eq_nil_iff_forall_not_mem]
    intro i hi
    obtain ⟨h1, h2, -⟩ := (hmem i).mp hi
    omega
  · have h4 : List.range ([(1:ℚ)/10, 7/20, 11/20, 3/10].length) = [0, 1, 2, 3] := by rfl
    unfold detect
    rw [h4]
    norm_num [List.filter_cons, List.filter_nil, List.getD_cons_zero, List.getD_cons_succ]

/-- Witness for C1: the detector finds nothing in a 2-point series and
index 2 is an event of the scenario-A series. -/
theorem detect_correct_witness :
    detect [1/2, 3/5] (1/5) = [] ∧ 2 ∈ detect [1/10, 7/20, 11/20, 3/10] (1/5) :=
  ⟨(detect_correct [1/2, 3/5] (1/5)).2.2.1 (by decide),
    by rw [(detect_correct [1/10, 7/20, 11/20, 3/10] (1/5)).2.2.2]; exact List.mem_singleton.mpr rfl⟩

/-- JavaScript truthiness for an optional string field: present and nonempty. -/
def truthy : Option String → Option String
  | some s => if s = "" then none else some s
  | none => none

/-- First truthy entry of a chain of `else if` field checks. -/
def pick1 : List (Option String) → Option String
  | [] => none
  | o :: rest =>
    match truthy o with
    | some s => some s
    | none => pick1 rest

/-- The structured address object of a reverse-geocoding response. -/
structure Address where
  city : Option String
  town : Option String
  village : Option String
  county : Option String
  state : Option String
  region : Option String
  province : Option String
  country : Option String
  display : Option String

/-- The `parts` array built from an address: first of city/town/village/county,
then first of state/region/province, then country. -/
def partsOf (a : Address) : List String :=
  (pick1 [a.city, a.town, a.village, a.county]).toList
    ++ (pick1 [a.state, a.region, a.province]).toList
    ++ (truthy a.country).toList

/-- `parts.join(', ')`. -/
def joinComma : List String → String
  | [] => ""
  | [s] => s
  | s :: t :: rest => s ++ ", " ++ joinComma (t :: rest)

/-- `display.split(',').slice(0, 3).join(',')`. -/
def firstThreeSegments (d : String) : String :=
  String.intercalate "," ((d.splitOn ",").take 3)

/-- `Math.abs(x).toFixed(2)` for an exactly representable value: round to the
nearest hundredth (half up) and print with two decimals. -/
def toFixed2 (q : ℚ) : String :=
  toString ((⌊q * 100 + 1/2⌋).toNat / 100) ++ "."
    ++ (if (⌊q * 100 + 1/2⌋).toNat % 100 < 10 then "0" else "")
    ++ toString ((⌊q * 100 + 1/2⌋).toNat % 100)

/-- The macro-region bounding-box chain of `generateFallbackLocation`
(first variant, App.tsx lines 104-133), including the Atlantic branch that
is reachable only when the Pacific guard fails. -/
def regionOf1 (lat lon : ℚ) : String :=
  if 25 ≤ lat ∧ lat ≤ 50 ∧ -125 ≤ lon ∧ lon ≤ -65 then "North America"
  else if -35 ≤ lat ∧ lat ≤ 12 ∧ -80 ≤ lon ∧ lon ≤ -35 then "South America"
  else if 35 ≤ lat ∧ lat ≤ 70 ∧ -10 ≤ lon ∧ lon ≤ 40 then "Europe"
  else if -35 ≤ lat ∧ lat ≤ 37 ∧ -18 ≤ lon ∧ lon ≤ 52 then "Africa"
  else if -10 ≤ lat ∧ lat ≤ 55 ∧ 40 ≤ lon ∧ lon ≤ 145 then "Asia"
  else if -45 ≤ lat ∧ lat ≤ -10 ∧ 110 ≤ lon ∧ lon ≤ 155 then "Australia/Oceania"
  else if 150 < |lon| ∨ |lon| < 30 then
    (if |lat| < 50 then "Pacific Ocean" else "Unknown Region")
  else if -70 ≤ lon ∧ lon ≤ -20 ∧ |lat| < 55 then "Atlantic Ocean"
  else "Unknown Region"

/-- The macro-region chain of `generateFallbackLocation` (second variant,
App.tsx lines 627-641): no latitude guard on the Pacific branch and no
Atlantic branch. -/
def regionOf2 (lat lon : ℚ) : String :=
  if 25 ≤ lat ∧ lat ≤ 50 ∧ -125 ≤ lon ∧ lon ≤ -65 then "North America"
  else if -35 ≤ lat ∧ lat ≤ 12 ∧ -80 ≤ lon ∧ lon ≤ -35 then "South America"
  else if 35 ≤ lat ∧ lat ≤ 70 ∧ -10 ≤ lon ∧ lon ≤ 40 then "Europe"
  else if -35 ≤ lat ∧ lat ≤ 37 ∧ -18 ≤ lon ∧ lon ≤ 52 then "Africa"
  else if -10 ≤ lat ∧ lat ≤ 55 ∧ 40 ≤ lon ∧ lon ≤ 145 then "Asia"
  else if -45 ≤ lat ∧ lat ≤ -10 ∧ 110 ≤ lon ∧ lon ≤ 155 then "Australia/Oceania"
  else if 150 < |lon| ∨ |lon| < 30 then "Pacific Ocean"
  else "Unknown Region"

/-- `${region} (${absLat}°${latDir}, ${absLon}°${lonDir})`, first variant. -/
def generateFallbackLocation1 (lat lon : ℚ) : String :=
  regionOf1 lat lon ++ " (" ++ toFixed2 |lat| ++ "°" ++ (if 0 ≤ lat then "N" else "S")
    ++ ", " ++ toFixed2 |lon| ++ "°" ++ (if 0 ≤ lon then "E" else "W") ++ ")"

/-- `${region} (${absLat}°${latDir}, ${absLon}°${lonDir})`, second variant. -/
def generateFallbackLocation2 (lat lon : ℚ) : String :=
  regionOf2 lat lon ++ " (" ++ toFixed2 |lat| ++ "°" ++ (if 0 ≤ lat then "N" else "S")
    ++ ", " ++ toFixed2 |lon| ++ "°" ++ (if 0 ≤ lon then "E" else "W") ++ ")"

/-- `fetchLocationName` (first variant, no cache): a `none` response models
any provider failure (timeout, malformed response, missing address). -/
def fetchLocationName1 (lat lon : ℚ) (resp : Option Address) : String :=
  match resp with
  | none => generateFallbackLocation1 lat lon
  | some addr =>
    if partsOf addr = [] then
      match truthy addr.display with
      | some d => firstThreeSegments d
      | none => generateFallbackLocation1 lat lon
    else joinComma (partsOf addr)

/-- The process-lifetime location cache of the second variant, keyed by the
raw `(lat, lon)` pair (the code builds the key by string interpolation of
the unrounded numbers). -/
abbrev Cache := List ((ℚ × ℚ) × String)

/-- `locationCache[key]` lookup. -/
def cacheLookup (c : Cache) (k : ℚ × ℚ) : Option String :=
  (c.find? fun e => decide (e.1 = k)).map Prod.snd

/-- The cache-miss path of `fetchLocationName` (second variant): resolve the
label, write it to the cache, and report that the provider was invoked. -/
def fetchMiss2 (c : Cache) (lat lon : ℚ) (resp : Option Address) : String × Cache × Bool :=
  match resp with
  | some addr =>
    if partsOf addr = [] then
      (generateFallbackLocation2 lat lon,
        ((lat, lon), generateFallbackLocation2 lat lon) :: c, true)
    else (joinComma (partsOf addr), ((lat, lon), joinComma (partsOf addr)) :: c, true)
  | none =>
    (generateFallbackLocation2 lat lon,
      ((lat, lon), generateFallbackLocation2 lat lon) :: c, true)

/-- `fetchLocationName` (second variant, App.tsx lines 593-625): check the
cache first (truthy hit returns immediately with no provider call), else run
the miss path.  Result: label, updated cache, whether the provider was invoked. -/
def fetchLocationName2 (c : Cache) (lat lon : ℚ) (resp : Option Address) : String × Cache × Bool :=
  match cacheLookup c (lat, lon) with
  | some l => if l = "" then fetchMiss2 c lat lon resp else (l, c, false)
  | none => fetchMiss2 c lat lon resp

/-- The nine macro-region names of the bounding-box table. -/
def regionNames : List String :=
  ["North America", "South America", "Europe", "Africa", "Asia",
    "Australia/Oceania", "Pacific Ocean", "Atlantic Ocean", "Unknown Region"]

/-- A truthy field value is never the empty string. -/
theorem truthy_ne_empty (o : Option String) (s : String) (h : truthy o = some s) :
    s ≠ "" := by
  cases o with
  | none => exact absurd h (by simp [truthy])
  | some t =>
    by_cases ht : t = ""
    · exact absurd h (by simp [truthy, ht])
    · have hh : t = s := by simpa [truthy, ht] using h
      rw [← hh]
      exact ht

/-- The first truthy entry of a field chain is never the empty string. -/
theorem pick1_ne_empty (l : List (Option String)) (s : String) (h : pick1 l = some s) :
    s ≠ "" := by
  induction l with
  | nil => exact absurd h (by simp [pick1])
  | cons o rest ih =>
    unfold pick1 at h
    cases ho : truthy o with
    | some u =>
      rw [ho] at h
      cases h
      exact truthy_ne_empty o _ ho
    | none =>
      rw [ho] at h
      exact ih h

/-- Every element of the `parts` array is a nonempty string. -/
theorem partsOf_ne_empty (a : Address) : ∀ s ∈ partsOf a, s ≠ "" := by
  intro s hs
  unfold partsOf at hs
  rcases List.mem_append.mp hs with h | h
  · rcases List.mem_append.mp h with h2 | h2
    · exact pick1_ne_empty _ s (by simpa using h2)
    · exact pick1_ne_empty _ s (by simpa using h2)
  · exact truthy_ne_empty a.country s (by simpa using h)

/-- A string ending in `")"` is nonempty. -/
theorem append_paren_ne_empty (x : String) : x ++ ")" ≠ "" := by
  intro h
  have hlen := congrArg String.length h
  rw [String.length_append] at hlen
  have h1 : String.length ")" = 1 := rfl
  have h0 : String.length "" = 0 := rfl
  omega

/-- `parts.join(', ')` of a nonempty array of nonempty strings is nonempty. -/
theorem joinComma_ne_empty (l : List String) (hne : l ≠ []) (h : ∀ s ∈ l, s ≠ "") :
    joinComma l ≠ "" := by
  match l with
  | [] => exact absurd rfl hne
  | [s] => exact h s (by simp)
  | s :: t :: rest =>
    show s ++ ", " ++ joinComma (t :: rest) ≠ ""
    intro hc
    have hlen := congrArg String.length hc
    rw [String.length_append, String.length_append] at hlen
    have h1 : String.length ", " = 2 := rfl
    have h0 : String.length "" = 0 := rfl
    omega

/-- Both fallback labels are nonempty strings. -/
theorem generateFallbackLocation2_ne_empty (lat lon : ℚ) :
    generateFallbackLocation2 lat lon ≠ "" :=
  append_paren_ne_empty _

/-- The miss path stores the label it returns at the raw coordinate key,
and that label is nonempty. -/
theorem fetchMiss2_stores (c : Cache) (lat lon : ℚ) (resp : Option Address) :
    (fetchMiss2 c lat lon resp).2.1 = ((lat, lon), (fetchMiss2 c lat lon resp).1) :: c
    ∧ (fetchMiss2 c lat lon resp).1 ≠ ""
    ∧ (fetchMiss2 c lat lon resp).2.2 = true := by
  cases resp with
  | none => exact ⟨rfl, generateFallbackLocation2_ne_empty lat lon, rfl⟩
  | some addr =>
    by_cases hp : partsOf addr = []
    · simp only [fetchMiss2, if_pos hp]
      exact ⟨trivial, generateFallbackLocation2_ne_empty lat lon, trivial⟩
    · simp only [fetchMiss2, if_neg hp]
      exact ⟨trivial, joinComma_ne_empty _ hp (partsOf_ne_empty addr), trivial⟩

/-- A cache that starts with the key maps the key to the stored label. -/
theorem cacheLookup_cons (k : ℚ × ℚ) (v : String) (c : Cache) :
    cacheLookup (((k, v)) :: c) k = some v := by
  unfold cacheLookup
  rw [List.find?_cons_of_pos _ (by simp)]
  rfl

/-- Claim C6: after one resolution of a coordinate (over any provider
response), a repeated call for the same coordinate key returns the cached
label without invoking the provider and leaves the cache unchanged. -/
theorem geocode_cache_hit (c : Cache) (lat lon : ℚ) (resp resp2 : Option Address) :
    fetchLocationName2 (fetchLocationName2 c lat lon resp).2.1 lat lon resp2 =
      ((fetchLocationName2 c lat lon resp).1,
        (fetchLocationName2 c lat lon resp).2.1, false) := by
  have hit : ∀ (c' : Cache) (l : String), cacheLookup c' (lat, lon) = some l → l ≠ "" →
      fetchLocationName2 c' lat lon resp2 = (l, c', false) := by
    intro c' l hl hne
    unfold fetchLocationName2
    rw [hl]
    simp only [if_neg hne]
  have miss : fetchLocationName2 c lat lon resp = fetchMiss2 c lat lon resp →
      fetchLocationName2 (fetchLocationName2 c lat lon resp).2.1 lat lon resp2 =
        ((fetchLocationName2 c lat lon resp).1,
          (fetchLocationName2 c lat lon resp).2.1, false) := by
    intro heq
    rw [heq]
    obtain ⟨hstore, hne, -⟩ := fetchMiss2_stores c lat lon resp
    refine hit _ _ ?_ hne
    rw [hstore]
    exact cacheLookup_cons _ _ _
  cases hl : cacheLookup c (lat, lon) with
  | some l =>
    by_cases hne : l = ""
    · refine miss ?_
      unfold fetchLocationName2
      rw [hl]
      simp [hne]
    · have h1 : fetchLocationName2 c lat lon resp = (l, c, false) := by
        unfold fetchLocationName2
        rw [hl]
        simp only [if_neg hne]
      rw [h1]
      exact hit c l hl hne
  | none =>
    refine miss ?_
    unfold fetchLocationName2
    rw [hl]

/-- Claim C5: on provider failure both variants return the deterministic
fallback label; the region always comes from the fixed nine-name table; and
at `(0, 0)` the label is `"Africa (0.00°N, 0.00°E)"`. -/
theorem geocode_fallback (lat lon : ℚ) :
    fetchLocationName1 lat lon none = generateFallbackLocation1 lat lon
    ∧ (fetchLocationName2 [] lat lon none).1 = generateFallbackLocation2 lat lon
    ∧ regionOf1 lat lon ∈ regionNames
    ∧ regionOf2 lat lon ∈ regionNames
    ∧ generateFallbackLocation1 0 0 = "Africa (0.00°N, 0.00°E)"
    ∧ generateFallbackLocation2 0 0 = "Africa (0.00°N, 0.00°E)" := by
  refine ⟨rfl, rfl, ?_, ?_, ?_, ?_⟩
  · unfold regionOf1
    split_ifs <;> decide
  · unfold regionOf2
    split_ifs <;> decide
  · unfold generateFallbackLocation1 regionOf1 toFixed2
    norm_num
    rfl
  · unfold generateFallbackLocation2 regionOf2 toFixed2
    norm_num
    rfl

/-- One record of the fused chart series: a calendar day with an optional
historical and an optional forecast NDVI value. -/
structure FusedRec where
  day : ℕ
  historical : Option ℚ
  forecast : Option ℚ
deriving DecidableEq, Repr

/-- `map[h.date] = { ...(map[h.date] || { date }), historical: v }`:
update the record for the day in place, or append a fresh one. -/
def upsertHist : List FusedRec → ℕ → ℚ → List FusedRec
  | [], d, v => [⟨d, some v, none⟩]
  | r :: rs, d, v =>
    if r.day = d then ⟨r.day, some v, r.forecast⟩ :: rs
    else r :: upsertHist rs d v

/-- `map[f.date] = { ...(map[f.date] || { date }), forecast: v }`. -/
def upsertForecast : List FusedRec → ℕ → Option ℚ → List FusedRec
  | [], d, v => [⟨d, none, v⟩]
  | r :: rs, d, v =>
    if r.day = d then ⟨r.day, r.historical, v⟩ :: rs
    else r :: upsertForecast rs d v

/-- `forecastDates.map((d, i) => ({ ..., forecast: forecastValues[i] }))`:
pair each forecast date with its value, `none` when the values array is
shorter (JavaScript yields `undefined` there). -/
def fpairs : List DateT → List ℚ → List (DateT × Option ℚ)
  | [], _ => []
  | d :: ds, [] => (d, none) :: fpairs ds []
  | d :: ds, v :: vs => (d, some v) :: fpairs ds vs

/-- `ndvi.length > 0 ? new Date(ndvi[ndvi.length-1].Date) : new Date()`. -/
def lastHistDate (ndvi : List ObsPoint) (now : DateT) : DateT :=
  match ndvi.getLast? with
  | some p => p.date
  | none => now

/-- `.filter(f => f.dateObj > lastHistDate)`: keep only forecast points
whose full timestamp is strictly after the last historical timestamp. -/
def keptForecast (ndvi : List ObsPoint) (now : DateT) (fd : List DateT) (fv : List ℚ) :
    List (DateT × Option ℚ) :=
  (fpairs fd fv).filter fun x => decide (dateLt (lastHistDate ndvi now) x.1)

/-- The map after inserting all historical records (keyed by day). -/
def histMap (ndvi : List ObsPoint) : List FusedRec :=
  ndvi.foldl (fun m p => upsertHist m p.date.day p.ndvi) []

/-- The map after additionally inserting the windowed forecast records. -/
def fusedMap (ndvi : List ObsPoint) (fd : List DateT) (fv : List ℚ) (now : DateT) :
    List FusedRec :=
  (keptForecast ndvi now fd fv).foldl
    (fun m x => upsertForecast m x.1.day x.2) (histMap ndvi)

/-- `combinedSeries` (App.tsx lines 189-201): build the day-keyed map from
the historical series and the windowed forecast, then sort ascending by the
date key. -/
def combinedSeries (ndvi : List ObsPoint) (fd : List DateT) (fv : List ℚ) (now : DateT) :
    List FusedRec :=
  (fusedMap ndvi fd fv now).insertionSort (fun a b => a.day ≤ b.day)

instance : IsTotal FusedRec (fun a b => a.day ≤ b.day) :=
  ⟨fun a b => Nat.le_total a.day b.day⟩

instance : IsTrans FusedRec (fun a b => a.day ≤ b.day) :=
  ⟨fun _ _ _ h1 h2 => Nat.le_trans h1 h2⟩

/-- The day keys of a fused map. -/
def recKeys (m : List FusedRec) : List ℕ :=
  m.map FusedRec.day

/-- Upserting a historical value either keeps the key list or appends the
new key. -/
theorem recKeys_upsertHist (m : List FusedRec) (d : ℕ) (v : ℚ) :
    recKeys (upsertHist m d v) =
      if d ∈ recKeys m then recKeys m else recKeys m ++ [d] := by
  induction m with
  | nil => simp [upsertHist, recKeys]
  | cons r rs ih =>
    by_cases hr : r.day = d
    · simp [upsertHist, recKeys, hr]
    · have hstep : upsertHist (r :: rs) d v = r :: upsertHist rs d v := by
        simp [upsertHist, hr]
      have hL : recKeys (r :: upsertHist rs d v) = r.day :: recKeys (upsertHist rs d v) := rfl
      by_cases hd : d ∈ recKeys rs
      · have hmem : d ∈ recKeys (r :: rs) := by
          simp only [recKeys, List.map_cons, List.mem_cons]
          exact Or.inr hd
        rw [hstep, if_pos hmem, hL, ih, if_pos hd]
        rfl
      · have hmem : d ∉ recKeys (r :: rs) := by
          simp only [recKeys, List.map_cons, List.mem_cons]
          push_neg
          exact ⟨Ne.symm hr, hd⟩
        rw [hstep, if_neg hmem, hL, ih, if_neg hd]
        rfl

/-- Upserting a forecast value either keeps the key list or appends the
new key. -/
theorem recKeys_upsertForecast (m : List FusedRec) (d : ℕ) (v : Option ℚ) :
    recKeys (upsertForecast m d v) =
      if d ∈ recKeys m then recKeys m else recKeys m ++ [d] := by
  induction m with
  | nil => simp [upsertForecast, recKeys]
  | cons r rs ih =>
    by_cases hr : r.day = d
    · simp [upsertForecast, recKeys, hr]
    · have hstep : upsertForecast (r :: rs) d v = r :: upsertForecast rs d v := by
        simp [upsertForecast, hr]
      have hL : recKeys (r :: upsertForecast rs d v) = r.day :: recKeys (upsertForecast rs d v) :=
        rfl
      by_cases hd : d ∈ recKeys rs
      · have hmem : d ∈ recKeys (r :: rs) := by
          simp only [recKeys, List.map_cons, List.mem_cons]
          exact Or.inr hd
        rw [hstep, if_pos hmem, hL, ih, if_pos hd]
        rfl
      · have hmem : d ∉ recKeys (r :: rs) := by
          simp only [recKeys, List.map_cons, List.mem_cons]
          push_neg
          exact ⟨Ne.symm hr, hd⟩
        rw [hstep, if_neg hmem, hL, ih, if_neg hd]
        rfl

/-- Key lists with a fresh key appended stay duplicate-free. -/
theorem nodup_upsert_keys (ks : List ℕ) (d : ℕ) (h : ks.Nodup) :
    (if d ∈ ks then ks else ks ++ [d]).Nodup := by
  by_cases hd : d ∈ ks
  · rwa [if_pos hd]
  · rw [if_neg hd]
    simp [List.nodup_append, h, hd]

/-- Any property preserved by the historical upsert: it holds of the
updated or fresh record and the untouched rest. -/
theorem upsertHist_inv (m : List FusedRec) (d : ℕ) (v : ℚ) (Q : FusedRec → Prop)
    (hm : ∀ r ∈ m, Q r)
    (hupd : ∀ r ∈ m, r.day = d → Q ⟨d, some v, r.forecast⟩)
    (hfresh : Q ⟨d, some v, none⟩) :
    ∀ r ∈ upsertHist m d v, Q r := by
  induction m with
  | nil =>
    intro r hr
    have hre : r = ⟨d, some v, none⟩ := by simpa [upsertHist] using hr
    rw [hre]
    exact hfresh
  | cons r0 rs ih =>
    intro r hr
    by_cases h0 : r0.day = d
    · have hstep : upsertHist (r0 :: rs) d v = ⟨r0.day, some v, r0.forecast⟩ :: rs := by
        simp [upsertHist, h0]
      rw [hstep] at hr
      rcases List.mem_cons.mp hr with h | h
      · rw [h, h0]
        exact hupd r0 (List.mem_cons_self _ _) h0
      · exact hm r (List.mem_cons_of_mem _ h)
    · have hstep : upsertHist (r0 :: rs) d v = r0 :: upsertHist rs d v := by
        simp [upsertHist, h0]
      rw [hstep] at hr
      rcases List.mem_cons.mp hr with h | h
      · rw [h]
        exact hm r0 (List.mem_cons_self _ _)
      · exact ih (fun q hq => hm q (List.mem_cons_of_mem _ hq))
          (fun q hq hqd => hupd q (List.mem_cons_of_mem _ hq) hqd) r h

/-- Any property preserved by the forecast upsert. -/
theorem upsertForecast_inv (m : List FusedRec) (d : ℕ) (ov : Option ℚ) (Q : FusedRec → Prop)
    (hm : ∀ r ∈ m, Q r)
    (hupd : ∀ r ∈ m, r.day = d → Q ⟨d, r.historical, ov⟩)
    (hfresh : Q ⟨d, none, ov⟩) :
    ∀ r ∈ upsertForecast m d ov, Q r := by
  induction m with
  | nil =>
    intro r hr
    have hre : r = ⟨d, none, ov⟩ := by simpa [upsertForecast] using hr
    rw [hre]
    exact hfresh
  | cons r0 rs ih =>
    intro r hr
    by_cases h0 : r0.day = d
    · have hstep : upsertForecast (r0 :: rs) d ov = ⟨r0.day, r0.historical, ov⟩ :: rs := by
        simp [upsertForecast, h0]
      rw [hstep] at hr
      rcases List.mem_cons.mp hr with h | h
      · rw [h, h0]
        exact hupd r0 (List.mem_cons_self _ _) h0
      · exact hm r (List.mem_cons_of_mem _ h)
    · have hstep : upsertForecast (r0 :: rs) d ov = r0 :: upsertForecast rs d ov := by
        simp [upsertForecast, h0]
      rw [hstep] at hr
      rcases List.mem_cons.mp hr with h | h
      · rw [h]
        exact hm r0 (List.mem_cons_self _ _)
      · exact ih (fun q hq => hm q (List.mem_cons_of_mem _ hq))
          (fun q hq hqd => hupd q (List.mem_cons_of_mem _ hq) hqd) r h

/-- A fold invariant: if each step preserves `Q` for inputs satisfying `P`,
the fold preserves `Q`. -/
theorem foldl_rec_inv {α : Type} (f : List FusedRec → α → List FusedRec)
    (Q : FusedRec → Prop) (P : α → Prop)
    (hf : ∀ m x, P x → (∀ r ∈ m, Q r) → ∀ r ∈ f m x, Q r) :
    ∀ (l : List α) (m : List FusedRec), (∀ x ∈ l, P x) → (∀ r ∈ m, Q r) →
      ∀ r ∈ l.foldl f m, Q r := by
  intro l
  induction l with
  | nil =>
    intro m _ hm
    simpa using hm
  | cons x xs ih =>
    intro m hl hm
    simp only [List.foldl_cons]
    exact ih _ (fun y hy => hl y (List.mem_cons_of_mem _ hy))
      (hf m x (hl x (List.mem_cons_self _ _)) hm)

/-- The historical fold keeps the day keys duplicate-free. -/
theorem hist_foldl_keys_nodup :
    ∀ (l : List ObsPoint) (m : List FusedRec), (recKeys m).Nodup →
      (recKeys (l.foldl (fun m p => upsertHist m p.date.day p.ndvi) m)).Nodup := by
  intro l
  induction l with
  | nil =>
    intro m hm
    simpa using hm
  | cons p ps ih =>
    intro m hm
    simp only [List.foldl_cons]
    refine ih _ ?_
    rw [recKeys_upsertHist]
    exact nodup_upsert_keys _ _ hm

/-- The forecast fold keeps the day keys duplicate-free. -/
theorem forecast_foldl_keys_nodup :
    ∀ (l : List (DateT × Option ℚ)) (m : List FusedRec), (recKeys m).Nodup →
      (recKeys (l.foldl (fun m x => upsertForecast m x.1.day x.2) m)).Nodup := by
  intro l
  induction l with
  | nil =>
    intro m hm
    simpa using hm
  | cons x xs ih =>
    intro m hm
    simp only [List.foldl_cons]
    refine ih _ ?_
    rw [recKeys_upsertForecast]
    exact nodup_upsert_keys _ _ hm

/-- The fused map never holds two records for the same day. -/
theorem fusedMap_keys_nodup (ndvi : List ObsPoint) (fd : List DateT) (fv : List ℚ)
    (now : DateT) : (recKeys (fusedMap ndvi fd fv now)).Nodup := by
  unfold fusedMap
  refine forecast_foldl_keys_nodup _ _ ?_
  unfold histMap
  exact hist_foldl_keys_nodup _ _ (by simp [recKeys])

/-- The sorted output of the fusion is strictly increasing in the day key:
sorted with no duplicate dates. -/
theorem combinedSeries_pairwise (ndvi : List ObsPoint) (fd : List DateT) (fv : List ℚ)
    (now : DateT) :
    (combinedSeries ndvi fd fv now).Pairwise (fun a b => a.day < b.day) := by
  have hs : (combinedSeries ndvi fd fv now).Pairwise (fun a b => a.day ≤ b.day) :=
    List.sorted_insertionSort _ _
  have hperm : List.Perm (combinedSeries ndvi fd fv now) (fusedMap ndvi fd fv now) :=
    List.perm_insertionSort _ _
  have hnod : (recKeys (combinedSeries ndvi fd fv now)).Nodup :=
    ((hperm.map FusedRec.day).nodup_iff).mpr (fusedMap_keys_nodup ndvi fd fv now)
  have hne : (combinedSeries ndvi fd fv now).Pairwise (fun a b => a.day ≠ b.day) := by
    unfold recKeys at hnod
    unfold List.Nodup at hnod
    exact List.pairwise_map.mp hnod
  exact (hs.and hne).imp (fun h => Nat.lt_of_le_of_ne h.1 h.2)

/-- Every date of a forecast pair comes from the forecast date array. -/
theorem fpairs_fst_mem :
    ∀ (fd : List DateT) (fv : List ℚ) (x : DateT × Option ℚ),
      x ∈ fpairs fd fv → x.1 ∈ fd := by
  intro fd
  induction fd with
  | nil =>
    intro fv x hx
    cases fv <;> simp [fpairs] at hx
  | cons d ds ih =>
    intro fv x hx
    cases fv with
    | nil =>
      rcases List.mem_cons.mp hx with h | h
      · rw [h]
        exact List.mem_cons_self _ _
      · exact List.mem_cons_of_mem _ (ih [] x h)
    | cons v vs =>
      rcases List.mem_cons.mp hx with h | h
      · rw [h]
        exact List.mem_cons_self _ _
      · exact List.mem_cons_of_mem _ (ih vs x h)

/-- When the value array is at least as long as the date array, every
forecast pair carries a value. -/
theorem fpairs_snd_isSome :
    ∀ (fd : List DateT) (fv : List ℚ), fd.length ≤ fv.length →
      ∀ x ∈ fpairs fd fv, x.2.isSome = true := by
  intro fd
  induction fd with
  | nil =>
    intro fv _ x hx
    cases fv <;> simp [fpairs] at hx
  | cons d ds ih =>
    intro fv hlen x hx
    cases fv with
    | nil => simp at hlen
    | cons v vs =>
      rcases List.mem_cons.mp hx with h | h
      · rw [h]
        rfl
      · exact ih vs (by simpa using hlen) x h

/-- Claim C3: with a nonempty historical series, the fused output is
strictly sorted by day with no duplicate dates, and every forecast value in
it originates from a forecast point whose timestamp is strictly after the
last historical timestamp. -/
theorem fuse_windowed_sorted (ndvi : List ObsPoint) (fd : List DateT) (fv : List ℚ)
    (now : DateT) (_hne : ndvi ≠ []) :
    (combinedSeries ndvi fd fv now).Pairwise (fun a b => a.day < b.day)
    ∧ (∀ r ∈ combinedSeries ndvi fd fv now, ∀ v : ℚ, r.forecast = some v →
        ∃ x ∈ fpairs fd fv, dateLt (lastHistDate ndvi now) x.1
          ∧ x.1.day = r.day ∧ x.2 = some v) := by
  refine ⟨combinedSeries_pairwise ndvi fd fv now, ?_⟩
  have hhist : ∀ r ∈ histMap ndvi, r.forecast = none := by
    unfold histMap
    refine foldl_rec_inv _ (fun r => r.forecast = none) (fun _ => True)
      ?_ ndvi [] (fun _ _ => trivial) (by simp)
    intro m p _ hm
    exact upsertHist_inv m _ _ _ hm (fun r hr _ => hm r hr) rfl
  have hQ : ∀ r ∈ fusedMap ndvi fd fv now,
      r.forecast = none ∨ ∃ x ∈ keptForecast ndvi now fd fv,
        r.day = x.1.day ∧ r.forecast = x.2 := by
    unfold fusedMap
    refine foldl_rec_inv _ _ (fun x => x ∈ keptForecast ndvi now fd fv) ?_ _ _
      (fun x hx => hx) (fun r hr => Or.inl (hhist r hr))
    intro m x hx hm
    refine upsertForecast_inv m _ _ _ hm ?_ ?_
    · intro r _ _
      exact Or.inr ⟨x, hx, rfl, rfl⟩
    · exact Or.inr ⟨x, hx, rfl, rfl⟩
  intro r hr v hv
  have hperm : List.Perm (combinedSeries ndvi fd fv now) (fusedMap ndvi fd fv now) :=
    List.perm_insertionSort _ _
  have hrm : r ∈ fusedMap ndvi fd fv now := hperm.mem_iff.mp hr
  rcases hQ r hrm with h | ⟨x, hx, hd, hf⟩
  · rw [h] at hv
    cases hv
  · have hxf := List.mem_filter.mp hx
    refine ⟨x, hxf.1, of_decide_eq_true hxf.2, hd.symm, ?_⟩
    rw [← hf, hv]

/-- Witness for C3 at a concrete fusion: one historical day, one stale and
one future forecast point. -/
theorem fuse_windowed_sorted_witness :
    (combinedSeries [⟨⟨1, 0⟩, 1/2⟩] [⟨0, 0⟩, ⟨2, 0⟩] [3/10, 2/5] ⟨9, 9⟩).Pairwise
      (fun a b => a.day < b.day) :=
  (fuse_windowed_sorted [⟨⟨1, 0⟩, 1/2⟩] [⟨0, 0⟩, ⟨2, 0⟩] [3/10, 2/5] ⟨9, 9⟩
    (List.cons_ne_nil _ _)).1

/-- Upserting a fresh day appends the record at the end. -/
theorem upsertHist_not_mem (m : List FusedRec) (d : ℕ) (v : ℚ) (hd : d ∉ recKeys m) :
    upsertHist m d v = m ++ [⟨d, some v, none⟩] := by
  induction m with
  | nil => rfl
  | cons r rs ih =>
    have h1 : ¬ r.day = d := by
      intro h
      exact hd (by simp [recKeys, h])
    have h2 : d ∉ recKeys rs := by
      intro h
      exact hd (by simp [recKeys] at h ⊢; exact Or.inr h)
    simp only [upsertHist, if_neg h1, List.cons_append, ih h2]

/-- Folding a historical series with pairwise-distinct fresh days appends
the mapped records in order. -/
theorem hist_foldl_fresh :
    ∀ (l : List ObsPoint) (m : List FusedRec),
      (∀ p ∈ l, p.date.day ∉ recKeys m) →
      l.Pairwise (fun p q => p.date.day ≠ q.date.day) →
      l.foldl (fun m p => upsertHist m p.date.day p.ndvi) m
        = m ++ l.map (fun p => ⟨p.date.day, some p.ndvi, none⟩) := by
  intro l
  induction l with
  | nil =>
    intro m _ _
    simp
  | cons p ps ih =>
    intro m hfresh hnd
    simp only [List.foldl_cons]
    rw [upsertHist_not_mem m _ _ (hfresh p (List.mem_cons_self _ _))]
    rw [ih _ ?_ (List.Pairwise.of_cons hnd)]
    · simp
    · intro q hq
      have hq1 : q.date.day ∉ recKeys m := hfresh q (List.mem_cons_of_mem _ hq)
      have hq2 : q.date.day ≠ p.date.day :=
        Ne.symm (List.rel_of_pairwise_cons hnd hq)
      intro hqmem
      rw [recKeys, List.map_append] at hqmem
      rcases List.mem_append.mp hqmem with h | h
      · exact hq1 (by rwa [recKeys])
      · simp at h
        exact hq2 h

/-- Claim C9: fusing any day-sorted historical series with an empty
forecast returns exactly the historical records, in order, with no
forecast fields. -/
theorem fuse_empty_forecast (ndvi : List ObsPoint) (now : DateT)
    (hsorted : ndvi.Pairwise (fun p q => p.date.day < q.date.day)) :
    combinedSeries ndvi [] [] now
      = ndvi.map (fun p => ⟨p.date.day, some p.ndvi, none⟩) := by
  have hfm : fusedMap ndvi [] [] now = histMap ndvi := rfl
  have hmap : histMap ndvi = ndvi.map (fun p => ⟨p.date.day, some p.ndvi, none⟩) := by
    unfold histMap
    rw [hist_foldl_fresh ndvi [] (by simp [recKeys])
      (hsorted.imp (fun h => Nat.ne_of_lt h))]
    simp
  unfold combinedSeries
  rw [hfm, hmap]
  apply List.Sorted.insertionSort_eq
  unfold List.Sorted
  rw [List.pairwise_map]
  exact hsorted.imp (fun h => Nat.le_of_lt h)

/-- Witness for C9 at a concrete two-point historical series. -/
theorem fuse_empty_forecast_witness :
    combinedSeries [⟨⟨1, 0⟩, 1/2⟩, ⟨⟨3, 0⟩, 3/5⟩] [] [] ⟨9, 9⟩
      = [⟨1, some (1/2), none⟩, ⟨3, some (3/5), none⟩] := by
  rw [fuse_empty_forecast [⟨⟨1, 0⟩, 1/2⟩, ⟨⟨3, 0⟩, 3/5⟩] ⟨9, 9⟩ (by decide)]
  rfl

/-- Claim C10 (counterexample): a forecast timestamp later on the same
calendar day as the last historical point passes the strict timestamp
filter, yet its day key collides with the historical record, so the fused
record carries both a historical and a forecast value on one date. -/
theorem fused_overlap_counterexample :
    combinedSeries [⟨⟨5, 0⟩, 1/2⟩] [⟨5, 1⟩] [3/10] ⟨9, 9⟩
      = [⟨5, some (1/2), some (3/10)⟩] := rfl

/-- Claim C10 (amended): when forecast timestamps are day-aligned (zero
tick), every historical day is at most the last historical day, and every
forecast date has a value, each fused record carries exactly one of the two
fields. -/
theorem fused_fields_exclusive (ndvi : List ObsPoint) (fd : List DateT) (fv : List ℚ)
    (now : DateT)
    (hticksF : ∀ d ∈ fd, d.tick = 0)
    (hlast : ∀ p ∈ ndvi, p.date.day ≤ (lastHistDate ndvi now).day)
    (hlen : fd.length ≤ fv.length) :
    ∀ r ∈ combinedSeries ndvi fd fv now,
      (r.historical.isSome = true ∧ r.forecast = none)
        ∨ (r.historical = none ∧ r.forecast.isSome = true) := by
  have hkept : ∀ x ∈ keptForecast ndvi now fd fv,
      (lastHistDate ndvi now).day < x.1.day ∧ x.2.isSome = true := by
    intro x hx
    have hxf := List.mem_filter.mp hx
    have hdlt : dateLt (lastHistDate ndvi now) x.1 := of_decide_eq_true hxf.2
    have htick : x.1.tick = 0 := hticksF x.1 (fpairs_fst_mem fd fv x hxf.1)
    refine ⟨?_, fpairs_snd_isSome fd fv hlen x hxf.1⟩
    rcases hdlt with h | ⟨-, h⟩
    · exact h
    · rw [htick] at h
      exact absurd h (Nat.not_lt_zero _)
  have hhist : ∀ r ∈ histMap ndvi,
      (r.historical.isSome = true ∧ r.forecast = none
          ∧ r.day ≤ (lastHistDate ndvi now).day)
        ∨ (r.historical = none ∧ r.forecast.isSome = true
            ∧ (lastHistDate ndvi now).day < r.day) := by
    unfold histMap
    refine foldl_rec_inv _ _ (fun p => p.date.day ≤ (lastHistDate ndvi now).day)
      ?_ ndvi [] hlast (by simp)
    intro m p hp hm
    refine upsertHist_inv m _ _ _ hm ?_ (Or.inl ⟨rfl, rfl, hp⟩)
    intro r hr hrd
    rcases hm r hr with ⟨-, hf, -⟩ | ⟨-, -, hgt⟩
    · exact Or.inl ⟨rfl, hf, hp⟩
    · have hcontra : (lastHistDate ndvi now).day < p.date.day := by
        rw [← hrd]
        exact hgt
      exact absurd hp (Nat.not_le_of_lt hcontra)
  have hInv : ∀ r ∈ fusedMap ndvi fd fv now,
      (r.historical.isSome = true ∧ r.forecast = none
          ∧ r.day ≤ (lastHistDate ndvi now).day)
        ∨ (r.historical = none ∧ r.forecast.isSome = true
            ∧ (lastHistDate ndvi now).day < r.day) := by
    unfold fusedMap
    refine foldl_rec_inv _ _
      (fun x => (lastHistDate ndvi now).day < x.1.day ∧ x.2.isSome = true)
      ?_ _ _ hkept hhist
    intro m x hx hm
    refine upsertForecast_inv m _ _ _ hm ?_ (Or.inr ⟨rfl, hx.2, hx.1⟩)
    intro r hr hrd
    rcases hm r hr with ⟨-, -, hle⟩ | ⟨hh, -, -⟩
    · have hcontra : x.1.day ≤ (lastHistDate ndvi now).day := by
        rw [← hrd]
        exact hle
      exact absurd hcontra (Nat.not_le_of_lt hx.1)
    · exact Or.inr ⟨hh, hx.2, hx.1⟩
  intro r hr
  have hrm : r ∈ fusedMap ndvi fd fv now :=
    (List.perm_insertionSort _ _).mem_iff.mp hr
  rcases hInv r hrm with ⟨h1, h2, -⟩ | ⟨h1, h2, -⟩
  · exact Or.inl ⟨h1, h2⟩
  · exact Or.inr ⟨h1, h2⟩

/-- Witness for C10 (amended): a day-aligned fusion where the historical
record keeps only its historical field and the forecast record only its
forecast field. -/
theorem fused_fields_exclusive_witness :
    ((some ((1 : ℚ)/2)).isSome = true ∧ (none : Option ℚ) = none)
      ∨ ((some ((1 : ℚ)/2)) = none ∧ (none : Option ℚ).isSome = true) :=
  fused_fields_exclusive [⟨⟨1, 0⟩, 1/2⟩] [⟨2, 0⟩] [3/10] ⟨9, 9⟩
    (by decide) (by decide) (by decide)
    ⟨1, some (1/2), none⟩ (by
      have h : combinedSeries [⟨⟨1, 0⟩, 1/2⟩] [⟨2, 0⟩] [3/10] ⟨9, 9⟩
          = [⟨1, some (1/2), none⟩, ⟨2, none, some (3/10)⟩] := rfl
      rw [h]
      exact List.mem_cons_self _ _)

/-- Which upstream endpoints a `fetchAll` run posts to. -/
structure Calls where
  ndvi : Bool
  peaks : Bool
  forecast : Bool
  thumb : Bool
  analysis : Bool
deriving DecidableEq, Repr

/-- Terminal outcome of a sequential report build. -/
inductive BuildStatus where
  | noData
  | ok
  | failed
deriving DecidableEq, Repr

/-- `fetchAll` (second variant, App.tsx lines 644-751): sequential build.
The two time arguments model the completion time of the previous run and
the current invocation time; the body never reads them because this variant
has no debounce check.  `ndviResp = none` models a failed NDVI request
(caught by the outer handler); `peaksOk` models whether the peaks request
succeeds (its failure also reaches the outer handler).  Thumbnail and
analysis failures are caught locally and never change control flow. -/
def fetchAllSeq (_lastRun _now : ℤ) (ndviResp : Option (List ObsPoint)) (peaksOk : Bool) :
    Calls × BuildStatus :=
  match ndviResp with
  | none => (⟨true, false, false, false, false⟩, BuildStatus.failed)
  | some records =>
    if records.isEmpty then (⟨true, false, false, false, false⟩, BuildStatus.noData)
    else if peaksOk then (⟨true, true, false, true, true⟩, BuildStatus.ok)
    else (⟨true, true, false, false, false⟩, BuildStatus.failed)

/-- `fetchAll` (first variant, App.tsx lines 135-187): a run within 2000 ms
of the previous one returns immediately with no calls; otherwise all five
requests are issued in one `Promise.all` fan-out before any result is seen.
Result: calls issued, updated `lastFetchTime`, and whether the summary
section is produced (`summary` is `null` exactly when the NDVI list is
empty). -/
def fetchAllConc (lastFetchTime now : ℤ) (ndviResp : Option (List ObsPoint)) :
    Calls × ℤ × Bool :=
  if now - lastFetchTime < 2000 then
    (⟨false, false, false, false, false⟩, lastFetchTime, false)
  else
    (⟨true, true, true, true, true⟩, now,
      match ndviResp with
      | some l => !l.isEmpty
      | none => false)

/-- Claim C4 (counterexample): in the concurrent variant an empty NDVI
result does not prevent the downstream calls — peaks, thumbnail and
analysis are all posted in the same fan-out. -/
theorem empty_ndvi_downstream_counterexample :
    (fetchAllConc 0 2000 (some [])).1.peaks = true
    ∧ (fetchAllConc 0 2000 (some [])).1.thumb = true
    ∧ (fetchAllConc 0 2000 (some [])).1.analysis = true :=
  ⟨rfl, rfl, rfl⟩

/-- Claim C4 (amended): in the sequential variant an empty NDVI result
terminates the build with the no-data status (not an error) after only the
NDVI call; the concurrent variant issues all calls in its single fan-out
but still skips the report assembly (`summary` stays null). -/
theorem empty_ndvi_no_data (lastRun now : ℤ) (peaksOk : Bool) :
    fetchAllSeq lastRun now (some []) peaksOk
        = (⟨true, false, false, false, false⟩, BuildStatus.noData)
    ∧ (∀ last t : ℤ, (fetchAllConc last t (some [])).2.2 = false) := by
  constructor
  · rfl
  · intro last t
    unfold fetchAllConc
    split_ifs <;> rfl

/-- Claim C7 (amended, first variant): two runs less than the debounce
interval apart perform at most one upstream fan-out — they never both issue
the NDVI request. -/
theorem debounce_at_most_one (last0 t0 t1 : ℤ) (r0 r1 : Option (List ObsPoint))
    (h01 : t1 - t0 < 2000) :
    ¬((fetchAllConc last0 t0 r0).1.ndvi = true
      ∧ (fetchAllConc (fetchAllConc last0 t0 r0).2.1 t1 r1).1.ndvi = true) := by
  intro hpair
  obtain ⟨ha, hb⟩ := hpair
  by_cases hc : t0 - last0 < 2000
  · have ha' : (fetchAllConc last0 t0 r0).1.ndvi = false := by
      unfold fetchAllConc
      rw [if_pos hc]
    rw [ha'] at ha
    exact absurd ha (by simp)
  · have hsnd : (fetchAllConc last0 t0 r0).2.1 = t0 := by
      unfold fetchAllConc
      rw [if_neg hc]
    have hb' : (fetchAllConc t0 t1 r1).1.ndvi = false := by
      unfold fetchAllConc
      rw [if_pos h01]
    rw [hsnd, hb'] at hb
    exact absurd hb (by simp)

/-- Witness for C7 (amended): a first run at time 2000 and a second run
1000 ms later never both fan out. -/
theorem debounce_at_most_one_witness :
    ¬((fetchAllConc 0 2000 (some [⟨⟨1, 0⟩, 1/2⟩])).1.ndvi = true
      ∧ (fetchAllConc (fetchAllConc 0 2000 (some [⟨⟨1, 0⟩, 1/2⟩])).2.1 3000
          (some [⟨⟨1, 0⟩, 1/2⟩])).1.ndvi = true) :=
  debounce_at_most_one 0 2000 3000 _ _ (by decide)

/-- Claim C7 (counterexample): the sequential variant has no debounce —
two invocations 1 ms apart (well inside the 2000 ms interval) both issue
the upstream NDVI request. -/
theorem no_debounce_counterexample :
    ((2001 : ℤ) - 2000 < 2000)
    ∧ (fetchAllSeq 0 2000 (some [⟨⟨1, 0⟩, 1/2⟩]) true).1.ndvi = true
    ∧ (fetchAllSeq 2000 2001 (some [⟨⟨1, 0⟩, 1/2⟩]) true).1.ndvi = true :=
  ⟨by decide, rfl, rfl⟩

end BloomWatch
